import Mathlib

/-
Verification of the AutoSeq filename/foldername convention layer
(AutoSeq/utils/regex.py, AutoSeq/utils/path_utils.py) and of the UI
automation sequencing logic (AutoSeq/core/automation.py).

Strings are modelled as `List Char`.  Python regular expressions from the
fixed catalog in regex.py are hand-compiled to executable matchers with
`re.search` semantics (leftmost match, greedy quantifiers with
backtracking, `.` excluding the newline character, `$` matching at the end
of the string or just before a final newline, `re.IGNORECASE` treated as
ASCII case folding, `\d` treated as the ASCII digits, which covers every
input the application handles).
-/

namespace AutoSeq

/-- The open-brace character. -/
def obrace : Char := Char.ofNat 123

/-- The close-brace character. -/
def cbrace : Char := Char.ofNat 125

/-- The backslash character. -/
def bslash : Char := Char.ofNat 92

/-- The double-quote character. -/
def dquote : Char := Char.ofNat 34

/-- The single-quote character. -/
def squote : Char := Char.ofNat 39

/-- ASCII decimal digit, the effective meaning of the pattern `\d` on the
inputs the application handles. -/
def isDigitC (c : Char) : Bool := decide ('0' ≤ c) && decide (c ≤ '9')

/-- One entry of the character translation table `abi_translation_table`
built with `str.maketrans` in `PathUtilities.__init__` (path_utils.py,
lines 20-34): `none` means the character is deleted, `some d` means it is
replaced by `d`. Characters outside the table map to themselves. -/
def abiTranslation (c : Char) : Option Char :=
  if c = ' ' then none
  else if c = '+' then some '&'
  else if c = '*' then some '-'
  else if c = '|' then some '-'
  else if c = '/' then some '-'
  else if c = bslash then some '-'
  else if c = ':' then some '-'
  else if c = dquote then none
  else if c = squote then none
  else if c = '<' then some '-'
  else if c = '>' then some '-'
  else if c = '?' then none
  else if c = ',' then none
  else some c

/-- `PathUtilities.adjust_abi_chars`: apply the translation table to every
character (`str.translate`). -/
def adjust_abi_chars (s : List Char) : List Char := s.filterMap abiTranslation

/-- Index of the last occurrence of `c` in `s`, or `-1` when there is
none: the behaviour of Python `str.rfind` restricted to one-character
needles, as used by `os.path.splitext`. -/
def rfindIdx (s : List Char) (c : Char) : Int :=
  match s with
  | [] => -1
  | x :: xs =>
    let r := rfindIdx xs c
    if r ≥ 0 then r + 1 else if x = c then 0 else -1

/-- The root part of `os.path.splitext` (genericpath._splitext with the
Windows separators, sep = backslash and altsep = slash): split at the last
dot that comes after the last separator, provided at least one non-dot
character stands between the separator and that dot; otherwise return the
whole string. -/
def splitextRoot (p : List Char) : List Char :=
  let sepIndex := max (rfindIdx p bslash) (rfindIdx p '/')
  let dotIndex := rfindIdx p '.'
  if dotIndex > sepIndex then
    let start := (sepIndex + 1).toNat
    if ((p.drop start).take (dotIndex.toNat - start)).any (fun c => c ≠ '.')
    then p.take dotIndex.toNat
    else p
  else p

/-- `name.replace("_Premixed", "")` from `neutralize_suffixes`
(path_utils.py line 60): remove every non-overlapping occurrence of the
literal `_Premixed`, scanning left to right. -/
def stripPremixed : List Char → List Char
  | '_' :: 'P' :: 'r' :: 'e' :: 'm' :: 'i' :: 'x' :: 'e' :: 'd' :: rest => stripPremixed rest
  | c :: rest => c :: stripPremixed rest
  | [] => []

/-- `name.replace("_RTI", "")` from `neutralize_suffixes` (path_utils.py
line 61). -/
def stripRTI : List Char → List Char
  | '_' :: 'R' :: 'T' :: 'I' :: rest => stripRTI rest
  | c :: rest => c :: stripRTI rest
  | [] => []

/-- `PathUtilities.neutralize_suffixes`: remove the `_Premixed`
occurrences, then the `_RTI` occurrences. -/
def neutralize_suffixes (s : List Char) : List Char := stripRTI (stripPremixed s)

/-- One left-to-right pass implementing `re.sub(r'{.*?}', '', text)`
(the `brace_content` pattern of regex.py line 21 used by
`PathUtilities.remove_brace_content`). The second argument is the
reversed buffer of the characters of a currently open brace span
(including its opening brace); it is empty exactly when the scan is
outside a span. A span is removed when its closing brace is reached; a
span interrupted by a newline or by the end of the string (no match for
the non-greedy pattern, whose dot cannot cross a newline) is emitted
verbatim. -/
def sbGo : List Char → List Char → List Char
  | [], buf => buf.reverse
  | c :: rest, buf =>
    if buf = [] then
      if c = obrace then sbGo rest [c] else c :: sbGo rest []
    else
      if c = cbrace then sbGo rest []
      else if c = '\n' then buf.reverse ++ c :: sbGo rest []
      else sbGo rest (c :: buf)

/-- `PathUtilities.remove_brace_content`. -/
def remove_brace_content (s : List Char) : List Char := sbGo s []

/-- `PathUtilities.normalize_filename(file_name, remove_extension=True)`
(path_utils.py lines 36-51): character substitution, then optional
extension stripping (only when a dot is present), then suffix removal,
then brace-content removal. -/
def normalize_filename (removeExt : Bool) (s : List Char) : List Char :=
  let adjusted := adjust_abi_chars s
  let adjusted2 := if removeExt ∧ '.' ∈ adjusted then splitextRoot adjusted else adjusted
  remove_brace_content (neutralize_suffixes adjusted2)

/-- The intermediate value of `normalize_filename` with the default
`remove_extension=True` just after character substitution and extension
stripping (before suffix and brace removal). -/
def adjustedStem (s : List Char) : List Char :=
  let adjusted := adjust_abi_chars s
  if '.' ∈ adjusted then splitextRoot adjusted else adjusted

/-! ### The fixed pattern catalog of `RegexPatterns` (regex.py lines 18-32)

Each compiled pattern is embedded as a matcher that attempts a match at
the head of a list (the role one anchor position plays for the regex
engine) and returns the list of its capture groups on success;
`re.search` is the leftmost such attempt that succeeds. -/

/-- Case-insensitive match of one literal pattern character `p` (given in
lower case) against a subject character, the effect of `re.IGNORECASE`
on an ASCII literal. -/
def charCI (p c : Char) : Bool := c = p || c = p.toUpper

/-- Strip a literal pattern (given in lower case) case-insensitively from
the head of the text, returning the remaining text on success. -/
def stripLitCI : List Char → List Char → Option (List Char)
  | [], l => some l
  | _ :: _, [] => none
  | p :: ps, c :: cs => if charCI p c then stripLitCI ps cs else none

/-- The maximal run of digits at the head of the text together with the
rest of the text: the result of a greedy `\d+` or `\d*`. -/
def digitRun : List Char → List Char × List Char
  | [] => ([], [])
  | c :: rest =>
    if isDigitC c then
      let p := digitRun rest
      (c :: p.1, p.2)
    else ([], c :: rest)

/-- The character class `[A-H]` under `re.IGNORECASE`. -/
def isAH (c : Char) : Bool :=
  (decide ('A' ≤ c) && decide (c ≤ 'H')) || (decide ('a' ≤ c) && decide (c ≤ 'h'))

/-- Whether the tail pattern `.+x` (for a literal `x` that is not a
newline) matches at the head of the text: one or more non-newline
characters followed by `x`. Succeeds exactly when some occurrence of `x`
at position at least 1 is preceded only by non-newline characters, i.e.
when the first character is not a newline and the first occurrence of `x`
in the remainder comes before any newline. -/
def seesBeforeNL (target : Char) : List Char → Bool
  | [] => false
  | x :: rest => if x = target then true else if x = '\n' then false else seesBeforeNL target rest

/-- See `seesBeforeNL`: the full `.+x` test. -/
def dotPlusThen (target : Char) (l : List Char) : Bool :=
  match l with
  | [] => false
  | x :: rest => x ≠ '\n' && seesBeforeNL target rest

/-- Generic `re.search`: try the matcher at every position from left to
right (including the empty suffix at the end) and return the first
success. -/
def searchAt (m : List Char → Option α) : List Char → Option α
  | [] => m []
  | c :: rest =>
    match m (c :: rest) with
    | some r => some r
    | none => searchAt m rest

/-- Anchored matcher for `bioi-(\d+)` (IGNORECASE): the literal `bioi-`
then a greedy nonempty digit run, which is the single capture group. -/
def matchHere_inumber (l : List Char) : Option (List (List Char)) :=
  match stripLitCI "bioi-".toList l with
  | none => none
  | some r =>
    let p := digitRun r
    if p.1 = [] then none else some [p.1]

/-- Backtracking loop of `{pcr(\d+).+}`: the greedy `\d+` first takes the
whole digit run and gives digits back one at a time until the tail
pattern `.+}` matches; the group is the digits kept. -/
def pcrLoop (run t : List Char) : Nat → Option (List Char)
  | 0 => none
  | j + 1 =>
    if dotPlusThen cbrace (run.drop (j + 1) ++ t) then some (run.take (j + 1))
    else pcrLoop run t j

/-- Anchored matcher for `{pcr(\d+).+}` (IGNORECASE). -/
def matchHere_pcr (l : List Char) : Option (List (List Char)) :=
  match l with
  | [] => none
  | c :: r =>
    if c = obrace then
      match stripLitCI "pcr".toList r with
      | none => none
      | some r2 =>
        let p := digitRun r2
        if p.1 = [] then none
        else
          match pcrLoop p.1 p.2 p.1.length with
          | some g => some [g]
          | none => none
    else none

/-- Whether a closing brace occurs in the text before any newline,
returning the text after it: the non-greedy `.*?}` of the
`brace_content` pattern `{.*?}`. -/
def findCloseBrace : List Char → Option (List Char)
  | [] => none
  | c :: rest =>
    if c = cbrace then some rest
    else if c = '\n' then none
    else findCloseBrace rest

/-- Anchored matcher for `{.*?}` (no capture groups). -/
def matchHere_brace (l : List Char) : Option (List (List Char)) :=
  match l with
  | [] => none
  | c :: rest => if c = obrace ∧ (findCloseBrace rest).isSome then some [] else none

/-- Anchored matcher for `bioi-\d+` (IGNORECASE, no capture groups). -/
def matchHere_bioi (l : List Char) : Option (List (List Char)) :=
  match stripLitCI "bioi-".toList l with
  | none => none
  | some r =>
    match r with
    | d :: _ => if isDigitC d then some [] else none
    | [] => none

/-- Scan for the `_\d` that ends the tail pattern `.+_\d+` of the
`bioi_order_folder` pattern: an underscore immediately followed by a
digit, preceded only by non-newline characters. -/
def udScan : List Char → Bool
  | [] => false
  | y :: rest =>
    if y = '\n' then false
    else if y = '_' && (match rest with | d :: _ => isDigitC d | [] => false) then true
    else udScan rest

/-- The tail pattern `.+_\d+`: at least one non-newline character, then
an underscore, then at least one digit. -/
def dotPlusUD (l : List Char) : Bool :=
  match l with
  | [] => false
  | x :: rest => x ≠ '\n' && udScan rest

/-- Anchored matcher for `bioi-\d+_.+_\d+` (IGNORECASE, no capture
groups): after the greedy nonempty digit run the next character must be
an underscore (a shorter run would put a digit there), then `.+_\d+`. -/
def matchHere_order_folder (l : List Char) : Option (List (List Char)) :=
  match stripLitCI "bioi-".toList l with
  | none => none
  | some r =>
    let p := digitRun r
    if p.1 = [] then none
    else
      match p.2 with
      | u :: t2 => if u = '_' ∧ dotPlusUD t2 then some [] else none
      | [] => none

/-- Anchored matcher for `p\d+.+` (IGNORECASE, no capture groups): a `p`,
a digit, and at least one further non-newline character; the greedy
`\d+` backtracks down to a single digit, so the character satisfying
`.+` may itself be a digit. -/
def matchHere_plate (l : List Char) : Option (List (List Char)) :=
  match l with
  | c :: d :: e :: _ =>
    if charCI 'p' c ∧ isDigitC d ∧ e ≠ '\n' then some [] else none
  | _ => none

/-- Anchored matcher for `fb-pcr\d+_\d+` (IGNORECASE, no capture
groups). -/
def matchHere_pcr_folder (l : List Char) : Option (List (List Char)) :=
  match stripLitCI "fb-pcr".toList l with
  | none => none
  | some r =>
    let p := digitRun r
    if p.1 = [] then none
    else
      match p.2 with
      | u :: d :: _ => if u = '_' ∧ isDigitC d then some [] else none
      | _ => none

/-- The anchor `$` without `re.MULTILINE`: the remaining text is empty or
a single final newline. -/
def atDollar (l : List Char) : Bool := l = [] || l = ['\n']

/-- Anchored matcher for `{\d+[A-H]}.ab1$` (IGNORECASE, no capture
groups); the dot before `ab1` is unescaped and matches any non-newline
character. -/
def matchHere_ind_blank (l : List Char) : Option (List (List Char)) :=
  match l with
  | [] => none
  | c :: r =>
    if c = obrace then
      let p := digitRun r
      if p.1 = [] then none
      else
        match p.2 with
        | h :: cb :: dot :: t4 =>
          if isAH h ∧ cb = cbrace ∧ dot ≠ '\n' then
            match stripLitCI "ab1".toList t4 with
            | some t5 => if atDollar t5 then some [] else none
            | none => none
          else none
        | _ => none
    else none

/-- The whole-string matcher for `^\d{2}[A-H]__.ab1$` (IGNORECASE, no
capture groups); `^` without `re.MULTILINE` anchors the match to the
start of the string, so `re.search` tries this position only. -/
def matchPlateBlankWhole (l : List Char) : Option (List (List Char)) :=
  match l with
  | d1 :: d2 :: h :: u1 :: u2 :: dot :: rest =>
    if isDigitC d1 ∧ isDigitC d2 ∧ isAH h ∧ u1 = '_' ∧ u2 = '_' ∧ dot ≠ '\n' then
      match stripLitCI "ab1".toList rest with
      | some t => if atDollar t then some [] else none
      | none => none
    else none
  | _ => none

/-- Anchored matcher for `{(\d+[A-H])}` (IGNORECASE): the group is the
digit run and the letter. -/
def matchHere_well (l : List Char) : Option (List (List Char)) :=
  match l with
  | [] => none
  | c :: r =>
    if c = obrace then
      let p := digitRun r
      if p.1 = [] then none
      else
        match p.2 with
        | h :: cb :: _ => if isAH h ∧ cb = cbrace then some [p.1 ++ [h]] else none
        | _ => none
    else none

/-- Anchored matcher for `{(\d+_\d+)}` (IGNORECASE). -/
def matchHere_reinject (l : List Char) : Option (List (List Char)) :=
  match l with
  | [] => none
  | c :: r =>
    if c = obrace then
      let p := digitRun r
      if p.1 = [] then none
      else
        match p.2 with
        | u :: r2 =>
          if u = '_' then
            let q := digitRun r2
            if q.1 = [] then none
            else
              match q.2 with
              | cb :: _ => if cb = cbrace then some [p.1 ++ u :: q.1] else none
              | [] => none
          else none
        | [] => none
    else none

/-- Anchored matcher for `{!P}` (IGNORECASE, no capture groups). -/
def matchHere_preemptive (l : List Char) : Option (List (List Char)) :=
  match l with
  | a :: b :: c :: d :: _ =>
    if a = obrace ∧ b = '!' ∧ charCI 'p' c ∧ d = cbrace then some [] else none
  | _ => none

/-- Anchored matcher for `_(\d+)(?:$|_)` (the `order_number` pattern,
regex.py line 31): an underscore, then a greedy nonempty digit run
(maximal, since a shorter run would have to be followed by a digit,
which is neither `$` nor `_`), followed by the end of the string, a
final newline, or another underscore. The run is the capture group. -/
def matchHere_order (l : List Char) : Option (List (List Char)) :=
  match l with
  | [] => none
  | c :: rest =>
    if c = '_' then
      let p := digitRun rest
      if p.1 ≠ [] ∧ (p.2 = [] ∨ p.2.head? = some '_' ∨ p.2 = ['\n'])
      then some [p.1] else none
    else none

/-- The names of the fixed pattern catalog (keys of `self.patterns` in
`RegexPatterns.__init__`). -/
inductive RPat where
  | inumber | pcr_number | brace_content | bioi_folder | bioi_order_folder
  | plate_folder | pcr_folder | ind_blank_file | plate_blank_file
  | well_location | reinject_dilution | preemptive_flag | order_number
deriving DecidableEq

/-- `pattern.search(text)` for each compiled pattern of the catalog,
returning the capture groups of the leftmost match. -/
def patSearch : RPat → List Char → Option (List (List Char))
  | .inumber, l => searchAt matchHere_inumber l
  | .pcr_number, l => searchAt matchHere_pcr l
  | .brace_content, l => searchAt matchHere_brace l
  | .bioi_folder, l => searchAt matchHere_bioi l
  | .bioi_order_folder, l => searchAt matchHere_order_folder l
  | .plate_folder, l => searchAt matchHere_plate l
  | .pcr_folder, l => searchAt matchHere_pcr_folder l
  | .ind_blank_file, l => searchAt matchHere_ind_blank l
  | .plate_blank_file, l => matchPlateBlankWhole l
  | .well_location, l => searchAt matchHere_well l
  | .reinject_dilution, l => searchAt matchHere_reinject l
  | .preemptive_flag, l => searchAt matchHere_preemptive l
  | .order_number, l => searchAt matchHere_order l

/-- `RegexPatterns.get`: `self.patterns.get(pattern_name)`, `none` for a
name outside the catalog. -/
def RegexPatterns.get (name : String) : Option RPat :=
  if name = "inumber" then some .inumber
  else if name = "pcr_number" then some .pcr_number
  else if name = "brace_content" then some .brace_content
  else if name = "bioi_folder" then some .bioi_folder
  else if name = "bioi_order_folder" then some .bioi_order_folder
  else if name = "plate_folder" then some .plate_folder
  else if name = "pcr_folder" then some .pcr_folder
  else if name = "ind_blank_file" then some .ind_blank_file
  else if name = "plate_blank_file" then some .plate_blank_file
  else if name = "well_location" then some .well_location
  else if name = "reinject_dilution" then some .reinject_dilution
  else if name = "preemptive_flag" then some .preemptive_flag
  else if name = "order_number" then some .order_number
  else none

/-- The catalog key list, for stating which names are known. -/
def knownPatternNames : List String :=
  ["inumber", "pcr_number", "brace_content", "bioi_folder", "bioi_order_folder",
   "plate_folder", "pcr_folder", "ind_blank_file", "plate_blank_file",
   "well_location", "reinject_dilution", "preemptive_flag", "order_number"]

/-- `RegexPatterns.match` (named `matchPat` here because `match` is a
Lean keyword): a missing pattern is treated as no match, otherwise the
pattern is searched in the text. -/
def RegexPatterns.matchPat (name : String) (text : List Char) : Option (List (List Char)) :=
  match RegexPatterns.get name with
  | none => none
  | some p => patSearch p text

/-- `RegexPatterns.extract`: group `g` of the match when a match exists
and `g` does not exceed the number of capture groups, else `none`.
Group 0 (the whole matched text) is not modelled; every call site in the
repository uses the default `group=1`. -/
def RegexPatterns.extract (name : String) (text : List Char) (g : Nat) : Option (List Char) :=
  match RegexPatterns.matchPat name text with
  | none => none
  | some groups => if 1 ≤ g ∧ g ≤ groups.length then groups.get? (g - 1) else none

/-- `RegexPatterns.contains`: whether the text contains a match. -/
def RegexPatterns.contains (name : String) (text : List Char) : Bool :=
  (RegexPatterns.matchPat name text).isSome

/-- `PathUtilities.get_inumber_from_name`. -/
def get_inumber_from_name (s : List Char) : Option (List Char) :=
  RegexPatterns.extract "inumber" s 1

/-- `PathUtilities.get_pcr_number`. -/
def get_pcr_number (s : List Char) : Option (List Char) :=
  RegexPatterns.extract "pcr_number" s 1

/-- `PathUtilities.get_order_number`. -/
def get_order_number (s : List Char) : Option (List Char) :=
  RegexPatterns.extract "order_number" s 1

/-- `PathUtilities.is_bioi_folder`. -/
def is_bioi_folder (s : List Char) : Bool := RegexPatterns.contains "bioi_folder" s

/-- `PathUtilities.is_order_folder`. -/
def is_order_folder (s : List Char) : Bool := RegexPatterns.contains "bioi_order_folder" s

/-- `PathUtilities.is_plate_folder`. -/
def is_plate_folder (s : List Char) : Bool := RegexPatterns.contains "plate_folder" s

/-- `PathUtilities.is_pcr_folder`. -/
def is_pcr_folder (s : List Char) : Bool := RegexPatterns.contains "pcr_folder" s

/-! ### DialogHandler (automation.py lines 48-200)

Window titles are `List Char`; the windows of the external application
visible at poll number `t` are given by an oracle `wins : Nat → List
(List Char)`, and a fuel argument counts the polls the configured
timeout would allow. The six title rules supplied by the branches of
`wait_for_dialog` are embedded below; pywinauto matches a `title_re`
criterion with `re.match`, i.e. anchored at the start of the title.
The module, however, imports pywinauto only inside `main()`
(automation.py line 634), so the module-level name `timings` used by
`wait_for_dialog` is unbound: a call with a recognized dialog kind
raises `NameError` when the callee expression `timings.wait_until` is
evaluated — before any window is inspected — and the handler clause
`except timings.TimeoutError` raises the same `NameError` when it is
evaluated, so the exception escapes. Fallible behaviour is embedded
with `Except`. -/

/-- Title rule of the `browse_dialog` kind: `re.match('Browse.*Folder',
title)` — the title starts with `Browse` and `Folder` occurs later with
no newline in between. `scanNoNL pat l` is true when `pat` occurs in `l`
at a position preceded only by non-newline characters. -/
def scanNoNL (pat : List Char) : List Char → Bool
  | [] => pat.isPrefixOf ([] : List Char)
  | c :: rest => pat.isPrefixOf (c :: rest) || (c ≠ '\n' && scanNoNL pat rest)

/-- Title rule of the `browse_dialog` kind. -/
def browseTitle (l : List Char) : Bool :=
  "Browse".toList.isPrefixOf l && scanNoNL "Folder".toList (l.drop 6)

/-- Title rule of the `preferences` kind: one of two exact titles. -/
def prefTitle (l : List Char) : Bool :=
  l = "Mseq Preferences".toList || l = "mSeq Preferences".toList

/-- Title rule of the `copy_files` kind: `re.match('Copy.*sequence
files', title)`. -/
def copyTitle (l : List Char) : Bool :=
  "Copy".toList.isPrefixOf l && scanNoNL "sequence files".toList (l.drop 4)

/-- Title rule of the `error_window` kind: `re.match('.*[Ee]rror.*',
title)` — an `E` or `e` followed by the lowercase letters `rror`,
preceded only by non-newline characters (the leading `.*` cannot cross a
newline). Note the rule is NOT case-insensitive beyond the first
letter. -/
def titleErrorMatch : List Char → Bool
  | [] => false
  | c :: rest =>
    if (c = 'E' ∨ c = 'e') ∧ "rror".toList.isPrefixOf rest then true
    else if c = '\n' then false
    else titleErrorMatch rest

/-- Title rule of the `call_bases` kind: `re.match('Call bases.*')`. -/
def callBasesTitle (l : List Char) : Bool := "Call bases".toList.isPrefixOf l

/-- Title rule of the `read_info` kind: `re.match('Read information
for.*')`. -/
def readInfoTitle (l : List Char) : Bool := "Read information for".toList.isPrefixOf l

/-- The six `dialog_type` strings that have a branch in
`wait_for_dialog` (automation.py lines 68-92). -/
def recognizedDialogKinds : List String :=
  ["browse_dialog", "preferences", "copy_files", "error_window", "call_bases", "read_info"]

/-- A Python exception escaping a call. -/
inductive PyError where
  | nameError (name : String)
deriving DecidableEq

/-- `DialogHandler.wait_for_dialog(app, dialog_type)` (automation.py
lines 63-95). Every recognized dialog kind returns
`timings.wait_until(...)`, whose callee lookup raises
`NameError("timings")` because pywinauto is imported only inside
`main()`; evaluating the `except timings.TimeoutError` clause then
raises the same `NameError`, so the call raises for every timeout
budget and every window oracle instead of polling. Only an unrecognized
kind reaches the `return False` on line 93 without touching `timings`.
The `fuel` and `wins` arguments embed the timeout budget and the
application's windows per poll that the branches would otherwise
consult; the raise preempts both. -/
def wait_for_dialog (dialogType : String) (_fuel : Nat) (_wins : Nat → List (List Char)) :
    Except PyError Bool :=
  if dialogType = "browse_dialog" then Except.error (PyError.nameError "timings")
  else if dialogType = "preferences" then Except.error (PyError.nameError "timings")
  else if dialogType = "copy_files" then Except.error (PyError.nameError "timings")
  else if dialogType = "error_window" then Except.error (PyError.nameError "timings")
  else if dialogType = "call_bases" then Except.error (PyError.nameError "timings")
  else if dialogType = "read_info" then Except.error (PyError.nameError "timings")
  else Except.ok false

/-! ### FileNavigator (automation.py lines 203-366) -/

/-- Python `str.split(sep)` for a one-character separator: empty pieces
are kept. -/
def splitChar (sep : Char) : List Char → List (List Char)
  | [] => [[]]
  | c :: rest =>
    let r := splitChar sep rest
    if c = sep then [] :: r
    else
      match r with
      | h :: t => (c :: h) :: t
      | [] => [[c]]

/-- The path-parsing step of `FileNavigator.navigate_to_folder`
(automation.py lines 247-255): when the path contains a colon the drive
is the piece before the first backslash and the folders are the
remaining pieces; otherwise (taken for UNC paths) the drive is a
backslash prepended to the backslash-join of the first three pieces and
the folders are the pieces from index 3 on. -/
def parseNavPath (path : List Char) : List Char × List (List Char) :=
  if ':' ∈ path then
    let parts := splitChar bslash path
    (parts.headD [], parts.tail)
  else
    let parts := splitChar bslash path
    (bslash :: (List.intercalate [bslash] (parts.take 3)), parts.drop 3)

/-- A node of the folder-picker tree view: its label text and its
children, as exposed by the opaque UI capability. -/
inductive UITree where
  | node (text : List Char) (children : List UITree)

/-- The label of a tree node. -/
def UITree.text : UITree → List Char
  | .node t _ => t

/-- The children of a tree node. -/
def UITree.children : UITree → List UITree
  | .node _ c => c

/-- Python substring containment `pat in hay`. -/
def containsSub (hay pat : List Char) : Bool :=
  hay.tails.any (fun t => pat.isPrefixOf t)

/-- ASCII lower-casing of a string, Python `str.lower` on the inputs the
application handles. -/
def toLowerL (l : List Char) : List Char := l.map Char.toLower

/-- One iteration of the folder-segment loop of `navigate_to_folder`
(automation.py lines 339-353): among the children of the current node,
the first whose label equals the segment exactly, else the first whose
lower-cased label contains the lower-cased segment as a substring. -/
def findChild (cur : UITree) (folder : List Char) : Option UITree :=
  match cur.children.find? (fun c => decide (c.text = folder)) with
  | some c => some c
  | none => cur.children.find? (fun c => containsSub (toLowerL c.text) (toLowerL folder))

/-- The folder-segment loop of `navigate_to_folder` (automation.py lines
332-366), instrumented with the number of segments for which a
child-search (one expand plus the two find loops) was attempted: the
walk stops at the first unresolvable segment, returning `false` and
attempting nothing for the segments after it. -/
def navigateFolders : UITree → List (List Char) → Bool × Nat
  | _, [] => (true, 0)
  | cur, folder :: rest =>
    match findChild cur folder with
    | none => (false, 1)
    | some nxt =>
      let r := navigateFolders nxt rest
      (r.1, r.2 + 1)

/-- The node reached after resolving a list of folder segments in turn,
`none` if some segment fails to resolve. -/
def walkFolders : UITree → List (List Char) → Option UITree
  | t, [] => some t
  | t, f :: rest =>
    match findChild t f with
    | none => none
    | some c => walkFolders c rest

/-- `re.findall(r'([A-Za-z]:)', drive_text)` followed by taking the
first element (automation.py lines 300-302): the first letter
immediately followed by a colon. -/
def findDriveLetter : List Char → Option (List Char)
  | [] => none
  | c :: rest =>
    match rest with
    | colon :: _ =>
      if ((decide ('A' ≤ c) && decide (c ≤ 'Z')) || (decide ('a' ≤ c) && decide (c ≤ 'z')))
          && colon = ':'
      then some [c, ':']
      else findDriveLetter rest
    | [] => none

/-- ASCII upper-casing, Python `str.upper` on the inputs handled. -/
def upperL (l : List Char) : List Char := l.map Char.toUpper

/-- The drive-matching loop of `navigate_to_folder` (automation.py lines
292-309): exact label match, else label-contains-drive match, else
drive-letter match (the letter extracted from the label, compared upper
case). -/
def findDrive (children : List UITree) (drive : List Char) : Option UITree :=
  children.find? (fun child =>
    let driveText := child.text
    let dl := if ':' ∈ driveText then findDriveLetter driveText else none
    decide (driveText = drive) || containsSub driveText drive ||
      (match dl with
       | some d => decide (upperL d = upperL drive)
       | none => false))

/-- `FileNavigator.navigate_to_folder(dialog, path)` (automation.py
lines 237-366). The tree-view control is `none` when `get_tree_view`
found nothing; `networkDrives` is the configured `NETWORK_DRIVES`
mapping. Click/expand timing delays are outside the embedding. -/
def navigate_to_folder (treeRoots : Option (List UITree))
    (networkDrives : List (List Char × List Char)) (path : List Char) : Bool :=
  match treeRoots with
  | none => false
  | some roots =>
    let pd := parseNavPath path
    match roots.find? (fun item => containsSub item.text "Desktop".toList) with
    | none => false
    | some desktop =>
      match desktop.children.find? (fun child =>
          containsSub (toLowerL child.text) "pc".toList ||
          containsSub (toLowerL child.text) "computer".toList) with
      | none => false
      | some thisPC =>
        let driveItem :=
          match findDrive thisPC.children pd.1 with
          | some d => some d
          | none =>
            match networkDrives.find? (fun p => decide (p.1 = pd.1)) with
            | some m => thisPC.children.find? (fun child => containsSub child.text m.2)
            | none => none
        match driveItem with
        | none => false
        | some d => if pd.2 = [] then true else (navigateFolders d pd.2).1

/-! ### ProcessMonitor (automation.py lines 369-418) -/

/-- The completion signals visible at each poll of
`ProcessMonitor.wait_for_completion`: whether a window titled `Low
quality files skipped` or `Quality files skipped` exists, whether
`close_all_read_info_dialogs` found (and closed) at least one read-info
window, and the directory listing of the target folder. -/
structure CompletionEnv where
  lowQualityDialog : Nat → Bool
  readInfoDialogs : Nat → Bool
  listing : Nat → List (List Char)

/-- `ProcessMonitor.check_output_files(folder_path)` (automation.py
lines 411-418): the number of directory entries ending in one of the
configured `TEXT_FILES` extensions. -/
def check_output_files (textExts : List (List Char)) (listing : List (List Char)) : Nat :=
  listing.countP (fun item => textExts.any (fun ext => ext.isSuffixOf item))

/-- `ProcessMonitor.wait_for_completion(app, folder_path)` (automation.py
lines 382-409): on each poll check, in priority order, the low-quality
dialog, then the read-info windows, then whether the output-text-file
count has reached 5; `false` once the maximum wait elapses (the fuel is
the number of polls `max_wait / interval` allows). The `OK`-click on the
low-quality dialog and the closing of the read-info windows are side
effects on the external application, outside the embedding. -/
def wait_for_completion (textExts : List (List Char)) (env : CompletionEnv) :
    Nat → Nat → Bool
  | _, 0 => false
  | t, fuel + 1 =>
    if env.lowQualityDialog t then true
    else if env.readInfoDialogs t then true
    else if 5 ≤ check_output_files textExts (env.listing t) then true
    else wait_for_completion textExts env (t + 1) fuel

/-! ### MseqAutomation.process_folder (automation.py lines 517-607)

The method is embedded at the granularity of the external-application
capability: each UI interaction it performs is recorded in an action
trace, and the outcome of each interaction is drawn from an oracle
environment. The `copy_dialog` and `call_bases_dialog` steps test a
pywinauto `WindowSpecification` object for truthiness, which is always
true, so their branches run unconditionally. The raising path inside
`connect_or_start_mseq` is beyond the boolean-result embedding; the
oracle assumes connecting succeeds. -/

/-- One interaction with the external application or its dialogs. -/
inductive UIAction where
  | closeReadInfoDialogs
  | connectOrStartMseq
  | setFocusMain
  | sendCtrlN
  | waitDialog (kind : String)
  | getBrowseDialog
  | navigate
  | clickButton (labels : List String)
  | getDialogByTitles (titles : List String)
  | getWindow (titleRe : String)
  | selectAllFiles
  | waitCompletion

/-- The oracle for one `process_folder` call: the filesystem facts about
the target folder, the connection state, and the outcome of each UI
step. -/
structure ProcEnv where
  folderExists : Bool
  listing : List (List Char)
  abiExtension : List Char
  appLive : Bool
  mainWindowLive : Bool
  browseFound : Bool
  browseRef : Bool
  navigationOk : Bool
  prefPresent : Bool
  errorPresent : Bool
  completionOk : Bool

/-- `MseqAutomation.process_folder(folder_path)` (automation.py lines
517-607), returning the boolean result and the trace of external-app
interactions performed. -/
def process_folder (env : ProcEnv) : Bool × List UIAction :=
  if env.folderExists = false then (false, [])
  else if env.listing.filter (fun f => env.abiExtension.isSuffixOf f) = [] then (false, [])
  else
    let tr := if env.appLive then [UIAction.closeReadInfoDialogs] else []
    let tr := tr ++
      (if env.appLive = false ∨ env.mainWindowLive = false then [UIAction.connectOrStartMseq]
       else [])
    let tr := tr ++ [UIAction.setFocusMain, UIAction.sendCtrlN, UIAction.waitDialog "browse_dialog"]
    if env.browseFound = false then (false, tr)
    else
      let tr := tr ++ [UIAction.getBrowseDialog]
      if env.browseRef = false then (false, tr)
      else
        let tr := tr ++ [UIAction.navigate]
        if env.navigationOk = false then (false, tr)
        else
          let tr := tr ++ [UIAction.clickButton ["OK", "&OK"],
            UIAction.waitDialog "preferences",
            UIAction.getDialogByTitles ["Mseq Preferences", "mSeq Preferences"]]
          let tr := tr ++ (if env.prefPresent then [UIAction.clickButton ["&OK", "OK"]] else [])
          let tr := tr ++ [UIAction.waitDialog "copy_files",
            UIAction.getWindow "Copy.*sequence files",
            UIAction.selectAllFiles, UIAction.clickButton ["&Open", "Open"]]
          let tr := tr ++ [UIAction.waitDialog "error_window",
            UIAction.getDialogByTitles ["File error", "Error"]]
          let tr := tr ++ (if env.errorPresent then [UIAction.clickButton ["OK"]] else [])
          let tr := tr ++ [UIAction.waitDialog "call_bases",
            UIAction.getWindow "Call bases.*", UIAction.clickButton ["&Yes", "Yes"]]
          let tr := tr ++ [UIAction.waitCompletion, UIAction.closeReadInfoDialogs]
          (env.completionOk, tr)

/-! ### Specification-side predicates used in theorem statements -/

mutual

/-- The brace characters of the string strictly alternate, starting with
an opening brace and with each opening brace closed before any newline:
the class of strings on which repeated removal of minimal `{...}` spans
leaves no brace behind. -/
def bracesPaired : List Char → Bool
  | [] => true
  | c :: rest =>
    if c = obrace then afterOpenOk rest
    else if c = cbrace then false
    else bracesPaired rest

/-- State of `bracesPaired` inside an open span: a closing brace must
arrive before any further opening brace, any newline, or the end of the
string. -/
def afterOpenOk : List Char → Bool
  | [] => false
  | c :: rest =>
    if c = cbrace then bracesPaired rest
    else if c = obrace then false
    else if c = '\n' then false
    else afterOpenOk rest

end

/-- Declarative reading of one match of the `order_number` pattern
`_(\d+)(?:$|_)` at position `i` of `s`, capturing the digits `d`: an
underscore at `i`, then the nonempty digit string `d`, followed by the
end of the string, another underscore, or a single final newline. -/
def OrderMatchAt (s : List Char) (i : Nat) (d : List Char) : Prop :=
  d ≠ [] ∧ (∀ c ∈ d, isDigitC c = true) ∧
    ∃ t, s.drop i = '_' :: (d ++ t) ∧ (t = [] ∨ t.head? = some '_' ∨ t = ['\n'])

/-! ## Theorems -/

/-- Claim C5: with `remove_extension` at its default, `normalize_filename`
maps the three specified example inputs to exactly the specified outputs,
via character substitution, then extension stripping, then suffix
removal, then brace removal. -/
theorem C5_normalize_examples :
    normalize_filename true "\x7b01A\x7dSample1_KseqF.ab1".toList = "Sample1_KseqF".toList ∧
    normalize_filename true "Sample+With*Illegal:Chars.ab1".toList
      = "Sample&With-Illegal-Chars".toList ∧
    normalize_filename true "Sample_Premixed_RTI.ab1".toList = "Sample".toList := by
  refine ⟨?_, ?_, ?_⟩ <;> decide

/-- Claim C2: on the UNC path `\\server\share\f1\f2` the path-parsing
step of `navigate_to_folder` derives the drive token
`\\\server` — three backslashes with the share name dropped — and the
folder segments `share`, `f1`, `f2`, not the UNC token `\\server\share`
with segments `f1`, `f2` that the claim (and the code's own inline
comment) describe. -/
theorem C2_unc_parse_drops_share :
    parseNavPath "\\\\server\\share\\f1\\f2".toList
      = ([bslash, bslash, bslash] ++ "server".toList,
         ["share".toList, "f1".toList, "f2".toList]) ∧
    ([bslash, bslash, bslash] ++ "server".toList : List Char)
      ≠ "\\\\server\\share".toList := by
  refine ⟨?_, ?_⟩ <;> decide

/-- Claim C1, counterexample: the input `{a}{` contains the
brace-delimited span `{a}` (the `brace_content` pattern matches it), yet
the output of `normalize_filename` on it still contains an opening
brace, so the claim fails on inputs with an additional unpaired brace. -/
theorem C1_counterexample :
    RegexPatterns.contains "brace_content" "\x7ba\x7d\x7b".toList = true ∧
    obrace ∈ normalize_filename true "\x7ba\x7d\x7b".toList := by
  refine ⟨?_, ?_⟩ <;> decide

/-- Claim C3, counterexample: in `a_12_34` both `_12` (followed by an
underscore) and `_34` (followed by the end of the string) are
`_<digits>` groups — the matcher confirms the trailing one at index 4 —
but `get_order_number` returns the digits `12` of the first group, not
the trailing `34`. -/
theorem C3_counterexample :
    matchHere_order ("a_12_34".toList.drop 4) = some ["34".toList] ∧
    get_order_number "a_12_34".toList = some "12".toList ∧
    some "12".toList ≠ some "34".toList := by
  refine ⟨?_, ?_, ?_⟩ <;> decide

/-- Claim C4, counterexample: a window titled all-caps `ERROR` — whose
title does contain the word error case-insensitively — is visible at
every poll, yet `wait_for_dialog` for the `error_window` kind neither
recognizes it nor returns false on timeout: the call raises `NameError`
on the unbound name `timings`. -/
theorem C4_counterexample :
    toLowerL "ERROR".toList = "error".toList ∧
    wait_for_dialog "error_window" 3 (fun _ => ["ERROR".toList])
      = Except.error (PyError.nameError "timings") :=
  ⟨by decide, rfl⟩

/-- Claim C10, counterexample: `is_plate_folder "P1234"` is true, not
false as claimed: the greedy `\d+` of `p\d+.+` backtracks so that a
trailing digit satisfies the final `.+`. -/
theorem C10_counterexample : is_plate_folder "P1234".toList = true := by decide

/-- A name outside the catalog resolves to no pattern. -/
theorem regexPatterns_get_unknown (name : String) (h : name ∉ knownPatternNames) :
    RegexPatterns.get name = none := by
  simp only [knownPatternNames, List.mem_cons, List.not_mem_nil, or_false, not_or] at h
  obtain ⟨h1, h2, h3, h4, h5, h6, h7, h8, h9, h10, h11, h12, h13⟩ := h
  unfold RegexPatterns.get
  rw [if_neg h1, if_neg h2, if_neg h3, if_neg h4, if_neg h5, if_neg h6, if_neg h7,
    if_neg h8, if_neg h9, if_neg h10, if_neg h11, if_neg h12, if_neg h13]

/-- Claim C8: for every pattern name outside the fixed catalog and every
text, `get` returns none, `match` returns none, `extract` returns none
(for every group index), and `contains` returns false; each operation is
total, so none raises. -/
theorem C8_unknown_pattern (name : String) (h : name ∉ knownPatternNames)
    (text : List Char) (g : Nat) :
    RegexPatterns.get name = none ∧
    RegexPatterns.matchPat name text = none ∧
    RegexPatterns.extract name text g = none ∧
    RegexPatterns.contains name text = false := by
  have hg : RegexPatterns.get name = none := regexPatterns_get_unknown name h
  have hm : RegexPatterns.matchPat name text = none := by
    unfold RegexPatterns.matchPat
    rw [hg]
  refine ⟨hg, hm, ?_, ?_⟩
  · unfold RegexPatterns.extract
    rw [hm]
  · unfold RegexPatterns.contains
    rw [hm]
    rfl

/-- Witness for C8 at the concrete unknown name `frobnicate`. -/
theorem C8_witness :
    "frobnicate" ∉ knownPatternNames ∧
    (RegexPatterns.get "frobnicate" = none ∧
     RegexPatterns.matchPat "frobnicate" "BioI-12345_x".toList = none ∧
     RegexPatterns.extract "frobnicate" "BioI-12345_x".toList 1 = none ∧
     RegexPatterns.contains "frobnicate" "BioI-12345_x".toList = false) :=
  ⟨by decide, C8_unknown_pattern "frobnicate" (by decide) "BioI-12345_x".toList 1⟩

/-- A filter by a predicate false on every element is empty. -/
theorem filter_eq_nil_of_false {α : Type} (p : α → Bool) (l : List α)
    (h : ∀ a ∈ l, p a = false) : l.filter p = [] := by
  rw [List.filter_eq_nil_iff]
  intro a ha
  simp [h a ha]

/-- Claim C9: for an existing folder whose listing has no file with the
configured input-trace extension, `process_folder` returns false with an
empty interaction trace: no window lookup, dialog close, keystroke or
click is attempted. -/
theorem C9_no_trace_without_ab1 (env : ProcEnv) (hex : env.folderExists = true)
    (h : ∀ f ∈ env.listing, env.abiExtension.isSuffixOf f = false) :
    process_folder env = (false, []) := by
  unfold process_folder
  rw [hex]
  rw [filter_eq_nil_of_false _ _ h]
  simp

/-- Witness for C9 at a concrete folder listing with no `.ab1` file. -/
theorem C9_witness :
    process_folder
      (ProcEnv.mk true ["notes.txt".toList, "a.seq".toList] ".ab1".toList
        false false false false false false false false) = (false, []) :=
  C9_no_trace_without_ab1 _ rfl (by decide)

/-- Claim C7: when the `i`-th folder segment is the first that cannot be
resolved (the walk resolves the segments before it to the node `u`, and
`u` has no child matching the segment exactly or as a case-insensitive
substring), the folder-segment loop of `navigate_to_folder` returns
false having attempted a child search for exactly the first `i + 1`
segments: nothing is expanded or searched for any later segment, and the
failure is reported only through the boolean. -/
theorem C7_navigation_fail_fast (t : UITree) (segs : List (List Char)) (i : Nat)
    (hi : i < segs.length) (u : UITree)
    (hw : walkFolders t (segs.take i) = some u)
    (hfail : findChild u (segs.get ⟨i, hi⟩) = none) :
    navigateFolders t segs = (false, i + 1) := by
  induction i generalizing t segs with
  | zero =>
    cases segs with
    | nil => exact absurd hi (by simp)
    | cons f rest =>
      have hu : t = u := by
        simpa [walkFolders] using hw
      subst hu
      simp only [List.get] at hfail
      simp [navigateFolders, hfail]
  | succ j ih =>
    cases segs with
    | nil => exact absurd hi (by simp)
    | cons f rest =>
      have hj : j < rest.length := by
        simpa using hi
      rw [List.take_succ_cons] at hw
      rw [walkFolders] at hw
      cases hfc : findChild t f with
      | none => rw [hfc] at hw; exact absurd hw (by simp)
      | some c =>
        rw [hfc] at hw
        have hget : (f :: rest).get ⟨j + 1, hi⟩ = rest.get ⟨j, hj⟩ := rfl
        rw [hget] at hfail
        have := ih c rest hj hw hfail
        rw [navigateFolders, hfc]
        simp [this]

/-- Witness for C7 on a two-segment path failing at the second segment:
the walk resolves segment `a` (by case-insensitive substring) and the
resulting node has no child matching `zz`, so navigation returns false
after exactly two attempts. -/
theorem C7_witness :
    walkFolders
        (UITree.node "root".toList [UITree.node "abc".toList [UITree.node "x".toList []]])
        ["AB".toList] = some (UITree.node "abc".toList [UITree.node "x".toList []]) ∧
    navigateFolders
        (UITree.node "root".toList [UITree.node "abc".toList [UITree.node "x".toList []]])
        ["AB".toList, "zz".toList] = (false, 2) :=
  ⟨rfl, C7_navigation_fail_fast _ _ 1 (by decide) _ rfl rfl⟩

/-- `wait_for_completion` reaches poll `n` and returns true there when
the signals are silent before `n` and the file count reaches the
threshold at `n`, for any fuel that exceeds `n`. -/
theorem wait_for_completion_reaches (exts : List (List Char)) (env : CompletionEnv) :
    ∀ (fuel t0 n : Nat), t0 ≤ n → n < t0 + fuel →
    (∀ t, t0 ≤ t → t ≤ n → env.lowQualityDialog t = false ∧ env.readInfoDialogs t = false) →
    (∀ t, t0 ≤ t → t < n → check_output_files exts (env.listing t) < 5) →
    5 ≤ check_output_files exts (env.listing n) →
    wait_for_completion exts env t0 fuel = true := by
  intro fuel
  induction fuel with
  | zero => intro t0 n h1 h2; omega
  | succ m ih =>
    intro t0 n h1 h2 hsig hlt hcnt
    have hs := hsig t0 (le_refl t0) h1
    rw [wait_for_completion, hs.1, hs.2]
    by_cases hn : t0 = n
    · subst hn
      simp [hcnt]
    · have hlt0 : check_output_files exts (env.listing t0) < 5 :=
        hlt t0 (le_refl t0) (by omega)
      simp only [Bool.false_eq_true, if_false]
      rw [if_neg (by omega)]
      exact ih (t0 + 1) n (by omega) (by omega)
        (fun t ht1 ht2 => hsig t (by omega) ht2)
        (fun t ht1 ht2 => hlt t (by omega) ht2) hcnt

/-- `wait_for_completion` returns false when every poll within the fuel
sees no signal. -/
theorem wait_for_completion_times_out (exts : List (List Char)) (env : CompletionEnv) :
    ∀ (fuel t0 : Nat),
    (∀ t, t0 ≤ t → t < t0 + fuel →
      env.lowQualityDialog t = false ∧ env.readInfoDialogs t = false ∧
      check_output_files exts (env.listing t) < 5) →
    wait_for_completion exts env t0 fuel = false := by
  intro fuel
  induction fuel with
  | zero => intro t0 _; rfl
  | succ m ih =>
    intro t0 h
    have h0 := h t0 (le_refl t0) (by omega)
    rw [wait_for_completion, h0.1, h0.2.1]
    simp only [Bool.false_eq_true, if_false]
    rw [if_neg (by omega)]
    exact ih (t0 + 1) (fun t ht1 ht2 => h t (by omega) (by omega))

/-- Claim C6: `wait_for_completion` polls the three signals each round
in priority order (low-quality dialog, read-info windows, output-file
count, in the order fixed by its definition); with the dialog signals
silent it returns true as soon as the poll at which the output-text-file
count first reaches 5 is within the allowed polls — any fuel exceeding
that poll suffices, so the full timeout is not waited out — and it
returns false once the maximum wait elapses with no signal observed. -/
theorem C6_completion_signals :
    (∀ (exts : List (List Char)) (env : CompletionEnv) (n fuel : Nat),
      n < fuel →
      (∀ t, t ≤ n → env.lowQualityDialog t = false ∧ env.readInfoDialogs t = false) →
      (∀ t, t < n → check_output_files exts (env.listing t) < 5) →
      5 ≤ check_output_files exts (env.listing n) →
      wait_for_completion exts env 0 fuel = true) ∧
    (∀ (exts : List (List Char)) (env : CompletionEnv) (fuel : Nat),
      (∀ t, t < fuel → env.lowQualityDialog t = false ∧ env.readInfoDialogs t = false ∧
        check_output_files exts (env.listing t) < 5) →
      wait_for_completion exts env 0 fuel = false) := by
  constructor
  · intro exts env n fuel hf hsig hlt hcnt
    exact wait_for_completion_reaches exts env fuel 0 n (by omega) (by omega)
      (fun t _ ht => hsig t ht) (fun t _ ht => hlt t ht) hcnt
  · intro exts env fuel h
    exact wait_for_completion_times_out exts env fuel 0
      (fun t _ ht => h t (by omega))

/-- Witness for C6: with five `.txt` entries visible at poll 0 a single
poll suffices for true; with an empty folder and silent dialogs two
polls end in false. -/
theorem C6_witness :
    wait_for_completion [".txt".toList]
      (CompletionEnv.mk (fun _ => false) (fun _ => false)
        (fun _ => ["a.txt".toList, "b.txt".toList, "c.txt".toList, "d.txt".toList,
                   "e.txt".toList])) 0 1 = true ∧
    wait_for_completion [".txt".toList]
      (CompletionEnv.mk (fun _ => false) (fun _ => false) (fun _ => [])) 0 2 = false := by
  constructor
  · exact C6_completion_signals.1 _ _ 0 1 (by omega)
      (fun t _ => ⟨rfl, rfl⟩) (fun t ht => absurd ht (by omega)) (by decide)
  · exact C6_completion_signals.2 _ _ 2
      (fun t _ => ⟨rfl, rfl, show check_output_files [".txt".toList] [] < 5 by decide⟩)

/-- The `error_window` title rule accepts every title built from a
non-newline prefix, an `E` or `e`, and the lowercase letters `rror`. -/
theorem titleErrorMatch_of_decomp (c : Char) (hc : c = 'E' ∨ c = 'e') (b : List Char) :
    ∀ a, '\n' ∉ a → titleErrorMatch (a ++ (c :: ("rror".toList ++ b))) = true := by
  intro a
  induction a with
  | nil =>
    intro _
    rw [List.nil_append, titleErrorMatch,
      if_pos ⟨hc, List.isPrefixOf_iff_prefix.mpr ⟨b, rfl⟩⟩]
  | cons x a' ih =>
    intro hnl
    rw [List.cons_append, titleErrorMatch]
    split_ifs with h1 h2
    · rfl
    · exfalso
      apply hnl
      rw [← h2]
      exact List.mem_cons_self x _
    · exact ih (fun hm => hnl (List.mem_cons_of_mem x hm))

/-- The `error_window` title rule accepts exactly the titles containing
an `E` or `e` followed by the lowercase letters `rror`, preceded only by
non-newline characters. -/
theorem titleErrorMatch_iff (title : List Char) :
    titleErrorMatch title = true ↔
    ∃ a b c, title = a ++ c :: ("rror".toList ++ b) ∧ (c = 'E' ∨ c = 'e') ∧ '\n' ∉ a := by
  constructor
  · induction title with
    | nil => intro h; exact absurd h (by decide)
    | cons c rest ih =>
      intro h
      rw [titleErrorMatch] at h
      split_ifs at h with h1 h2
      · obtain ⟨b, hb⟩ := List.isPrefixOf_iff_prefix.mp h1.2
        refine ⟨[], b, c, ?_, h1.1, by simp⟩
        rw [List.nil_append, ← hb]
      · obtain ⟨a, b, c', heq, hc', hnl⟩ := ih h
        refine ⟨c :: a, b, c', by rw [List.cons_append, heq], hc', ?_⟩
        intro hm
        rcases List.mem_cons.mp hm with hx | hx
        · exact h2 hx.symm
        · exact hnl hx
  · rintro ⟨a, b, c, heq, hc, hnl⟩
    subst heq
    exact titleErrorMatch_of_decomp c hc b a hnl

/-- Claim C4 (amended): the title pattern the generic-error branch
supplies, `.*[Ee]rror.*`, matches exactly the titles containing `Error`
or `error` — only the first letter varies in case, so all-caps titles
such as `ERROR` would not be recognized even if polling ran — but the
polling never runs: for every recognized dialog kind, every timeout
budget and every window oracle, `wait_for_dialog` raises `NameError` on
the unbound name `timings` instead of returning false on timeout, and
only a call with an unrecognized dialog kind returns false. -/
theorem C4_raises_instead_of_timeout :
    (∀ title : List Char, titleErrorMatch title = true ↔
      ∃ a b c, title = a ++ c :: ("rror".toList ++ b) ∧ (c = 'E' ∨ c = 'e') ∧ '\n' ∉ a) ∧
    (∀ dialogType, dialogType ∈ recognizedDialogKinds →
      ∀ (fuel : Nat) (wins : Nat → List (List Char)),
        wait_for_dialog dialogType fuel wins = Except.error (PyError.nameError "timings")) ∧
    (∀ dialogType, dialogType ∉ recognizedDialogKinds →
      ∀ (fuel : Nat) (wins : Nat → List (List Char)),
        wait_for_dialog dialogType fuel wins = Except.ok false) := by
  refine ⟨titleErrorMatch_iff, ?_, ?_⟩
  · intro dialogType hk fuel wins
    simp only [recognizedDialogKinds, List.mem_cons, List.not_mem_nil, or_false] at hk
    rcases hk with rfl | rfl | rfl | rfl | rfl | rfl <;> rfl
  · intro dialogType hk fuel wins
    simp only [recognizedDialogKinds, List.mem_cons, List.not_mem_nil, or_false,
      not_or] at hk
    obtain ⟨h1, h2, h3, h4, h5, h6⟩ := hk
    unfold wait_for_dialog
    rw [if_neg h1, if_neg h2, if_neg h3, if_neg h4, if_neg h5, if_neg h6]

/-- Witness for C4: the recognized kind `error_window` raises `NameError`
and the unrecognized kind `bogus` returns false, at a concrete budget
and window oracle. -/
theorem C4_witness :
    ("error_window" ∈ recognizedDialogKinds ∧
      wait_for_dialog "error_window" 4 (fun _ => [])
        = Except.error (PyError.nameError "timings")) ∧
    ("bogus" ∉ recognizedDialogKinds ∧
      wait_for_dialog "bogus" 4 (fun _ => []) = Except.ok false) :=
  ⟨⟨by decide, C4_raises_instead_of_timeout.2.1 "error_window" (by decide) 4 (fun _ => [])⟩,
   ⟨by decide, C4_raises_instead_of_timeout.2.2 "bogus" (by decide) 4 (fun _ => [])⟩⟩

/-- `charCI` with the literal `p` accepts exactly `p` and `P`. -/
theorem charCI_p_iff (c : Char) : charCI 'p' c = true ↔ (c = 'p' ∨ c = 'P') := by
  rw [charCI, show ('p'.toUpper) = 'P' from rfl]
  simp

/-- The anchored `plate_folder` matcher succeeds exactly on a `p` or
`P`, a digit, and a further non-newline character at the head. -/
theorem matchHere_plate_isSome (r : List Char) :
    (matchHere_plate r).isSome = true ↔
    ∃ c d e b, r = c :: d :: e :: b ∧ (c = 'p' ∨ c = 'P') ∧ isDigitC d = true ∧ e ≠ '\n' := by
  constructor
  · intro h
    match r, h with
    | c :: d :: e :: b, h =>
      rw [matchHere_plate] at h
      split_ifs at h with hcond
      · exact ⟨c, d, e, b, rfl, (charCI_p_iff c).mp hcond.1, hcond.2.1, hcond.2.2⟩
      · exact absurd h (by simp)
  · rintro ⟨c, d, e, b, rfl, hc, hd, he⟩
    rw [matchHere_plate, if_pos ⟨(charCI_p_iff c).mpr hc, hd, he⟩]
    rfl

/-- `re.search` finds a match somewhere iff some split of the text puts
a matching suffix on the right. -/
theorem searchAt_isSome_iff {α : Type} (m : List Char → Option α) (s : List Char) :
    (searchAt m s).isSome = true ↔ ∃ a r, s = a ++ r ∧ (m r).isSome = true := by
  induction s with
  | nil =>
    constructor
    · intro h
      exact ⟨[], [], rfl, h⟩
    · rintro ⟨a, r, heq, hr⟩
      obtain ⟨ha, hrnil⟩ := List.append_eq_nil.mp heq.symm
      subst ha; subst hrnil
      exact hr
  | cons c rest ih =>
    cases hm : m (c :: rest) with
    | some v =>
      have hsa : searchAt m (c :: rest) = some v := by rw [searchAt, hm]
      constructor
      · intro _
        exact ⟨[], c :: rest, rfl, by rw [hm]; rfl⟩
      · intro _
        rw [hsa]; rfl
    | none =>
      have hsa : searchAt m (c :: rest) = searchAt m rest := by rw [searchAt, hm]
      rw [hsa, ih]
      constructor
      · rintro ⟨a, r, heq, hr⟩
        exact ⟨c :: a, r, by rw [List.cons_append, heq], hr⟩
      · rintro ⟨a, r, heq, hr⟩
        cases a with
        | nil =>
          rw [List.nil_append] at heq
          rw [← heq, hm] at hr
          exact absurd hr (by simp)
        | cons x a' =>
          rw [List.cons_append] at heq
          injection heq with h1 h2
          exact ⟨a', r, h2, hr⟩

/-- Claim C10 (amended): `is_plate_folder` is an unanchored containment
check that is true exactly when the name contains, anywhere, a `p` or
`P` immediately followed by a digit and then at least one further
non-newline character — which may itself be a digit, so names consisting
of `p` followed by two or more digits (such as `P1234`) are accepted. -/
theorem C10_plate_folder_characterization (s : List Char) :
    is_plate_folder s = true ↔
    ∃ a c d e b, s = a ++ c :: d :: e :: b ∧
      (c = 'p' ∨ c = 'P') ∧ isDigitC d = true ∧ e ≠ '\n' := by
  rw [show is_plate_folder s = (searchAt matchHere_plate s).isSome from rfl,
    searchAt_isSome_iff]
  constructor
  · rintro ⟨a, r, heq, hr⟩
    obtain ⟨c, d, e, b, hre, hc, hd, hne⟩ := (matchHere_plate_isSome r).mp hr
    exact ⟨a, c, d, e, b, by rw [heq, hre], hc, hd, hne⟩
  · rintro ⟨a, c, d, e, b, heq, hc, hd, hne⟩
    exact ⟨a, c :: d :: e :: b, heq,
      (matchHere_plate_isSome _).mpr ⟨c, d, e, b, rfl, hc, hd, hne⟩⟩

/-- `digitRun` on a digit string followed by a non-digit-headed tail
splits exactly there. -/
theorem digitRun_append (d t : List Char) (hd : ∀ c ∈ d, isDigitC c = true)
    (ht : ∀ c, t.head? = some c → isDigitC c = false) : digitRun (d ++ t) = (d, t) := by
  induction d with
  | nil =>
    cases t with
    | nil => rfl
    | cons x rest =>
      have hx := ht x rfl
      simp [digitRun, hx]
  | cons c d' ih =>
    have hc := hd c (List.mem_cons_self c d')
    simp [digitRun, hc, ih (fun x hx => hd x (List.mem_cons_of_mem c hx))]

/-- `digitRun` decomposes its input into an all-digit run and a tail
that does not start with a digit. -/
theorem digitRun_spec (l : List Char) :
    (digitRun l).1 ++ (digitRun l).2 = l ∧ (∀ c ∈ (digitRun l).1, isDigitC c = true) ∧
    (∀ c, (digitRun l).2.head? = some c → isDigitC c = false) := by
  induction l with
  | nil =>
    refine ⟨rfl, fun c hc => absurd hc (List.not_mem_nil c), ?_⟩
    intro c h
    exact Option.noConfusion h
  | cons c rest ih =>
    by_cases hc : isDigitC c = true
    · refine ⟨?_, ?_, ?_⟩
      · simp only [digitRun, hc, if_true]
        rw [List.cons_append, ih.1]
      · intro x hx
        simp only [digitRun, hc, if_true] at hx
        rcases List.mem_cons.mp hx with h | h
        · rw [h]; exact hc
        · exact ih.2.1 x h
      · intro x hx
        simp only [digitRun, hc, if_true] at hx
        exact ih.2.2 x hx
    · have hc' : isDigitC c = false := by
        cases h : isDigitC c
        · rfl
        · exact absurd h hc
      refine ⟨?_, ?_, ?_⟩
      · simp [digitRun, hc']
      · intro x hx
        simp [digitRun, hc'] at hx
      · intro x hx
        simp only [digitRun, hc', Bool.false_eq_true, if_false, List.head?] at hx
        injection hx with hx
        rw [← hx]; exact hc'

/-- The anchored `order_number` matcher at the head of `l` succeeds with
group `d` exactly when `l` decomposes per the declarative reading. -/
theorem matchHere_order_eq_some_iff (l d : List Char) :
    matchHere_order l = some [d] ↔
    (d ≠ [] ∧ (∀ c ∈ d, isDigitC c = true) ∧
     ∃ t, l = '_' :: (d ++ t) ∧ (t = [] ∨ t.head? = some '_' ∨ t = ['\n'])) := by
  constructor
  · intro h
    cases l with
    | nil => simp [matchHere_order] at h
    | cons c rest =>
      simp only [matchHere_order] at h
      split_ifs at h with hc hcond
      injection h with h'
      injection h' with hd htail
      obtain ⟨hsp, hdig, hnd⟩ := digitRun_spec rest
      subst hc
      rw [hd] at hcond hsp hdig
      exact ⟨hcond.1, hdig, (digitRun rest).2,
        congrArg (fun x => '_' :: x) hsp.symm, hcond.2⟩
  · rintro ⟨hne, hdig, t, heq, hterm⟩
    subst heq
    have hdr : digitRun (d ++ t) = (d, t) := by
      refine digitRun_append d t hdig ?_
      intro c hcu
      rcases hterm with h | h | h
      · rw [h] at hcu; exact Option.noConfusion hcu
      · rw [h] at hcu; injection hcu with hcu; rw [← hcu]; rfl
      · rw [h] at hcu; injection hcu with hcu; rw [← hcu]; rfl
    rw [matchHere_order, if_pos rfl, hdr]
    show (if (d ≠ [] ∧ (t = [] ∨ t.head? = some '_' ∨ t = ['\n'])) then some [d] else none)
      = some [d]
    exact if_pos ⟨hne, hterm⟩

/-- Every successful `order_number` match has exactly one group. -/
theorem matchHere_order_shape (l : List Char) (gs : List (List Char))
    (h : matchHere_order l = some gs) : ∃ r, gs = [r] := by
  cases l with
  | nil => simp [matchHere_order] at h
  | cons c rest =>
    simp only [matchHere_order] at h
    split_ifs at h with hc hcond
    injection h with h'
    exact ⟨(digitRun rest).1, h'.symm⟩

/-- A property preserved by every anchored match is preserved by the
search. -/
theorem searchAt_shape {α : Type} (m : List Char → Option α) (P : α → Prop)
    (hm : ∀ l v, m l = some v → P v) : ∀ s v, searchAt m s = some v → P v := by
  intro s
  induction s with
  | nil => intro v h; exact hm [] v h
  | cons c rest ih =>
    intro v h
    rw [searchAt] at h
    cases hmc : m (c :: rest) with
    | some w =>
      rw [hmc] at h
      injection h with h'
      exact h' ▸ hm _ _ hmc
    | none =>
      rw [hmc] at h
      exact ih v h

/-- `re.search` semantics, with the leftmost-match position made
explicit: the search returns `v` iff some position matches with `v` and
every earlier position does not match at all. -/
theorem searchAt_eq_some_iff {α : Type} (m : List Char → Option α) (s : List Char) (v : α) :
    searchAt m s = some v ↔
    ∃ i, m (s.drop i) = some v ∧ ∀ j, j < i → m (s.drop j) = none := by
  induction s with
  | nil =>
    constructor
    · intro h
      exact ⟨0, h, fun j hj => absurd hj (by omega)⟩
    · rintro ⟨i, hi, hall⟩
      cases i with
      | zero => exact hi
      | succ i' =>
        have h0 := hall 0 (by omega)
        rw [List.drop_nil] at hi h0
        rw [h0] at hi
        exact absurd hi (by simp)
  | cons c rest ih =>
    cases hm : m (c :: rest) with
    | some w =>
      have hsa : searchAt m (c :: rest) = some w := by rw [searchAt, hm]
      rw [hsa]
      constructor
      · intro h
        refine ⟨0, ?_, fun j hj => absurd hj (by omega)⟩
        rw [List.drop_zero, hm]
        exact h
      · rintro ⟨i, hi, hall⟩
        cases i with
        | zero =>
          rw [List.drop_zero, hm] at hi
          exact hi
        | succ i' =>
          have h0 := hall 0 (by omega)
          rw [List.drop_zero, hm] at h0
          exact absurd h0 (by simp)
    | none =>
      have hsa : searchAt m (c :: rest) = searchAt m rest := by rw [searchAt, hm]
      rw [hsa, ih]
      constructor
      · rintro ⟨i, hi, hall⟩
        refine ⟨i + 1, by rw [List.drop_succ_cons]; exact hi, ?_⟩
        intro j hj
        cases j with
        | zero => rw [List.drop_zero]; exact hm
        | succ j' =>
          rw [List.drop_succ_cons]
          exact hall j' (by omega)
      · rintro ⟨i, hi, hall⟩
        cases i with
        | zero =>
          rw [List.drop_zero, hm] at hi
          exact absurd hi (by simp)
        | succ i' =>
          refine ⟨i', by rw [List.drop_succ_cons] at hi; exact hi, ?_⟩
          intro j hj
          have := hall (j + 1) (by omega)
          rw [List.drop_succ_cons] at this
          exact this

/-- `get_order_number` delivers `d` exactly when the `order_number`
search does with `d` as its single group. -/
theorem get_order_number_eq_some_iff (s d : List Char) :
    get_order_number s = some d ↔ searchAt matchHere_order s = some [d] := by
  unfold get_order_number RegexPatterns.extract
  rw [show RegexPatterns.matchPat "order_number" s = searchAt matchHere_order s from rfl]
  cases hs : searchAt matchHere_order s with
  | none => simp
  | some gs =>
    obtain ⟨r, rfl⟩ :=
      searchAt_shape matchHere_order (fun v => ∃ x, v = [x]) matchHere_order_shape s gs hs
    simp

/-- Claim C3 (amended): `get_order_number` returns the digits of the
first (leftmost) `_<digits>` occurrence that is immediately followed by
another underscore or by the end of the string, and null when no such
occurrence exists — not the trailing such occurrence. -/
theorem C3_order_number_leftmost (s d : List Char) :
    get_order_number s = some d ↔
    ∃ i, OrderMatchAt s i d ∧ ∀ j d', j < i → ¬OrderMatchAt s j d' := by
  rw [get_order_number_eq_some_iff, searchAt_eq_some_iff]
  constructor
  · rintro ⟨i, hi, hall⟩
    refine ⟨i, (matchHere_order_eq_some_iff (s.drop i) d).mp hi, ?_⟩
    intro j d' hj hom
    have hmj := (matchHere_order_eq_some_iff (s.drop j) d').mpr hom
    rw [hall j hj] at hmj
    exact absurd hmj (by simp)
  · rintro ⟨i, hom, hnone⟩
    refine ⟨i, (matchHere_order_eq_some_iff _ _).mpr hom, ?_⟩
    intro j hj
    cases hmj : matchHere_order (s.drop j) with
    | none => rfl
    | some gs =>
      obtain ⟨r, rfl⟩ := matchHere_order_shape _ _ hmj
      exact absurd ((matchHere_order_eq_some_iff _ _).mp hmj) (hnone j r hj)

/-- Witness for C3 at the concrete name `a_12_34`: the returned digits
`12` are those of the leftmost anchored group. -/
theorem C3_witness :
    ∃ i, OrderMatchAt "a_12_34".toList i "12".toList ∧
      ∀ j d', j < i → ¬OrderMatchAt "a_12_34".toList j d' :=
  (C3_order_number_leftmost "a_12_34".toList "12".toList).mp (by decide)

/-- Witness for C10 at the concrete name `P1234`: the containment the
characterization promises does exist in it. -/
theorem C10_witness :
    ∃ a c d e b, "P1234".toList = a ++ c :: d :: e :: b ∧
      (c = 'p' ∨ c = 'P') ∧ isDigitC d = true ∧ e ≠ '\n' :=
  (C10_plate_folder_characterization "P1234".toList).mp (by decide)

/-- Prepending brace-free newline-free characters changes neither
pairing state. -/
theorem bracesPaired_append_clean (w : List Char)
    (hw : ∀ c ∈ w, c ≠ obrace ∧ c ≠ cbrace ∧ c ≠ '\n') (l : List Char) :
    bracesPaired (w ++ l) = bracesPaired l ∧ afterOpenOk (w ++ l) = afterOpenOk l := by
  induction w with
  | nil => exact ⟨rfl, rfl⟩
  | cons x w' ih =>
    have hx := hw x (List.mem_cons_self x w')
    have ih' := ih (fun c hc => hw c (List.mem_cons_of_mem x hc))
    constructor
    · rw [List.cons_append, bracesPaired, if_neg hx.1, if_neg hx.2.1]
      exact ih'.1
    · rw [List.cons_append, afterOpenOk, if_neg hx.2.1, if_neg hx.1, if_neg hx.2.2]
      exact ih'.2

/-- Removing the `_Premixed` occurrences preserves both brace-pairing
states: the removed characters are neither braces nor newlines. -/
theorem stripPremixed_preserves (l : List Char) :
    (bracesPaired l = true → bracesPaired (stripPremixed l) = true) ∧
    (afterOpenOk l = true → afterOpenOk (stripPremixed l) = true) := by
  induction l using stripPremixed.induct with
  | case1 rest ih =>
    have hw : ∀ c ∈ ('_' :: 'P' :: 'r' :: 'e' :: 'm' :: 'i' :: 'x' :: 'e' :: 'd'
        :: ([] : List Char)), c ≠ obrace ∧ c ≠ cbrace ∧ c ≠ '\n' := by decide
    have happ := bracesPaired_append_clean _ hw rest
    constructor
    · intro h
      have h' : bracesPaired rest = true := by
        rw [show ('_' :: 'P' :: 'r' :: 'e' :: 'm' :: 'i' :: 'x' :: 'e' :: 'd' :: rest)
            = ('_' :: 'P' :: 'r' :: 'e' :: 'm' :: 'i' :: 'x' :: 'e' :: 'd'
               :: ([] : List Char)) ++ rest from rfl, happ.1] at h
        exact h
      exact ih.1 h'
    · intro h
      have h' : afterOpenOk rest = true := by
        rw [show ('_' :: 'P' :: 'r' :: 'e' :: 'm' :: 'i' :: 'x' :: 'e' :: 'd' :: rest)
            = ('_' :: 'P' :: 'r' :: 'e' :: 'm' :: 'i' :: 'x' :: 'e' :: 'd'
               :: ([] : List Char)) ++ rest from rfl, happ.2] at h
        exact h
      exact ih.2 h'
  | case2 c rest hno ih =>
    have heq : stripPremixed (c :: rest) = c :: stripPremixed rest := by
      rw [stripPremixed]
      exact hno
    constructor
    · intro h
      rw [heq]
      by_cases hob : c = obrace
      · subst hob
        rw [bracesPaired, if_pos rfl] at h ⊢
        exact ih.2 h
      · by_cases hcb : c = cbrace
        · subst hcb
          rw [bracesPaired, if_neg (by decide), if_pos rfl] at h
          exact absurd h (by decide)
        · rw [bracesPaired, if_neg hob, if_neg hcb] at h ⊢
          exact ih.1 h
    · intro h
      rw [heq]
      by_cases hcb : c = cbrace
      · subst hcb
        rw [afterOpenOk, if_pos rfl] at h ⊢
        exact ih.1 h
      · by_cases hob : c = obrace
        · subst hob
          rw [afterOpenOk, if_neg (by decide), if_pos rfl] at h
          exact absurd h (by decide)
        · by_cases hnl : c = '\n'
          · subst hnl
            rw [afterOpenOk, if_neg (by decide), if_neg (by decide), if_pos rfl] at h
            exact absurd h (by decide)
          · rw [afterOpenOk, if_neg hcb, if_neg hob, if_neg hnl] at h ⊢
            exact ih.2 h
  | case3 => exact ⟨fun h => h, fun h => h⟩

/-- Removing the `_RTI` occurrences preserves both brace-pairing
states. -/
theorem stripRTI_preserves (l : List Char) :
    (bracesPaired l = true → bracesPaired (stripRTI l) = true) ∧
    (afterOpenOk l = true → afterOpenOk (stripRTI l) = true) := by
  induction l using stripRTI.induct with
  | case1 rest ih =>
    have hw : ∀ c ∈ ('_' :: 'R' :: 'T' :: 'I' :: ([] : List Char)),
        c ≠ obrace ∧ c ≠ cbrace ∧ c ≠ '\n' := by decide
    have happ := bracesPaired_append_clean _ hw rest
    constructor
    · intro h
      have h' : bracesPaired rest = true := by
        rw [show ('_' :: 'R' :: 'T' :: 'I' :: rest)
            = ('_' :: 'R' :: 'T' :: 'I' :: ([] : List Char)) ++ rest from rfl, happ.1] at h
        exact h
      exact ih.1 h'
    · intro h
      have h' : afterOpenOk rest = true := by
        rw [show ('_' :: 'R' :: 'T' :: 'I' :: rest)
            = ('_' :: 'R' :: 'T' :: 'I' :: ([] : List Char)) ++ rest from rfl, happ.2] at h
        exact h
      exact ih.2 h'
  | case2 c rest hno ih =>
    have heq : stripRTI (c :: rest) = c :: stripRTI rest := by
      rw [stripRTI]
      exact hno
    constructor
    · intro h
      rw [heq]
      by_cases hob : c = obrace
      · subst hob
        rw [bracesPaired, if_pos rfl] at h ⊢
        exact ih.2 h
      · by_cases hcb : c = cbrace
        · subst hcb
          rw [bracesPaired, if_neg (by decide), if_pos rfl] at h
          exact absurd h (by decide)
        · rw [bracesPaired, if_neg hob, if_neg hcb] at h ⊢
          exact ih.1 h
    · intro h
      rw [heq]
      by_cases hcb : c = cbrace
      · subst hcb
        rw [afterOpenOk, if_pos rfl] at h ⊢
        exact ih.1 h
      · by_cases hob : c = obrace
        · subst hob
          rw [afterOpenOk, if_neg (by decide), if_pos rfl] at h
          exact absurd h (by decide)
        · by_cases hnl : c = '\n'
          · subst hnl
            rw [afterOpenOk, if_neg (by decide), if_neg (by decide), if_pos rfl] at h
            exact absurd h (by decide)
          · rw [afterOpenOk, if_neg hcb, if_neg hob, if_neg hnl] at h ⊢
            exact ih.2 h
  | case3 => exact ⟨fun h => h, fun h => h⟩

/-- The brace-removal pass leaves no brace behind on a string whose
braces pair up (outside state), and none behind the pending span of a
string in a well-formed inside state. -/
theorem sbGo_no_braces (l : List Char) :
    (bracesPaired l = true → obrace ∉ sbGo l [] ∧ cbrace ∉ sbGo l []) ∧
    (∀ b bs, afterOpenOk l = true →
      obrace ∉ sbGo l (b :: bs) ∧ cbrace ∉ sbGo l (b :: bs)) := by
  induction l with
  | nil =>
    constructor
    · intro _
      exact ⟨List.not_mem_nil _, List.not_mem_nil _⟩
    · intro b bs h
      exact absurd h (by decide)
  | cons x rest ih =>
    constructor
    · intro h
      by_cases hob : x = obrace
      · subst hob
        rw [bracesPaired, if_pos rfl] at h
        rw [sbGo, if_pos rfl, if_pos rfl]
        exact ih.2 obrace [] h
      · by_cases hcb : x = cbrace
        · subst hcb
          rw [bracesPaired, if_neg (by decide), if_pos rfl] at h
          exact absurd h (by decide)
        · rw [bracesPaired, if_neg hob, if_neg hcb] at h
          rw [sbGo, if_pos rfl, if_neg hob]
          have hrest := ih.1 h
          constructor
          · intro hm
            rcases List.mem_cons.mp hm with h' | h'
            · exact hob h'.symm
            · exact hrest.1 h'
          · intro hm
            rcases List.mem_cons.mp hm with h' | h'
            · exact hcb h'.symm
            · exact hrest.2 h'
    · intro b bs h
      by_cases hcb : x = cbrace
      · subst hcb
        rw [afterOpenOk, if_pos rfl] at h
        rw [sbGo, if_neg (by simp), if_pos rfl]
        exact ih.1 h
      · by_cases hob : x = obrace
        · subst hob
          rw [afterOpenOk, if_neg (by decide), if_pos rfl] at h
          exact absurd h (by decide)
        · by_cases hnl : x = '\n'
          · subst hnl
            rw [afterOpenOk, if_neg (by decide), if_neg (by decide), if_pos rfl] at h
            exact absurd h (by decide)
          · rw [afterOpenOk, if_neg hcb, if_neg hob, if_neg hnl] at h
            rw [sbGo, if_neg (by simp), if_neg hcb, if_neg hnl]
            exact ih.2 x (b :: bs) h

/-- Claim C1 (amended): for every input filename such that, after
character substitution and (default) extension stripping, the brace
characters strictly alternate `{`,`}`,`{`,`}`,... with each opening
brace closed before any newline, the string returned by
`normalize_filename` contains no `{` and no `}`. (An input containing a
brace-delimited span together with an unpaired brace keeps that brace,
see the counterexample.) -/
theorem C1_normalize_removes_paired_braces (name : List Char)
    (h : bracesPaired (adjustedStem name) = true) :
    obrace ∉ normalize_filename true name ∧ cbrace ∉ normalize_filename true name := by
  have h1 := (stripPremixed_preserves (adjustedStem name)).1 h
  have h2 := (stripRTI_preserves (stripPremixed (adjustedStem name))).1 h1
  have h3 := (sbGo_no_braces (stripRTI (stripPremixed (adjustedStem name)))).1 h2
  have heq : normalize_filename true name
      = remove_brace_content (neutralize_suffixes (adjustedStem name)) := by
    simp [normalize_filename, adjustedStem]
  rw [heq]
  exact h3

/-- Witness for C1 on a filename whose braces pair up. -/
theorem C1_witness :
    bracesPaired (adjustedStem "\x7b01A\x7dSample_Premixed.ab1".toList) = true ∧
    (obrace ∉ normalize_filename true "\x7b01A\x7dSample_Premixed.ab1".toList ∧
     cbrace ∉ normalize_filename true "\x7b01A\x7dSample_Premixed.ab1".toList) :=
  ⟨by decide, C1_normalize_removes_paired_braces _ (by decide)⟩

end AutoSeq
